import Mathlib

set_option autoImplicit false
set_option maxRecDepth 40000

/-!
# A shallow embedding of the `kvs` log-structured key-value store

This file embeds the storage engine found in
`src/courses/rust/projects/project-2/src/kv.rs` and
`src/courses/rust/projects/project-2/src/error.rs` and proves properties
of its operations.

Modelling choices:
* Bytes are `Nat`s (every byte the code writes is `< 256`); files are
  `List Nat`; the single `database` file of a store directory is an
  `Option (List Nat)` (`none` = the file does not exist yet).
* Rust's `HashMap<String, Offset>` is an association list with unique keys;
  `insert` replaces in place, `remove` deletes, and iteration
  (`offsets.values()` during compaction) follows list order.  Rust's hash
  map leaves its iteration order unspecified; the concrete runs below were
  chosen so that their outcome does not depend on that order.
* `serde_json` is modelled for the one type the program serializes
  (`KvPair { key: String, value: Option<String> }`): `jsonEncodePair`
  mirrors `serde_json::to_string` (field order `key`, `value`; the standard
  JSON string escapes) followed by UTF-8 encoding, and `decodeBytes` parses
  exactly the canonical frames this program writes, rejecting everything
  else (as `serde_json::from_slice` also rejects it).
* `u32` counters/length prefixes are `Nat`s; the `size as u32` truncation
  in `append` is modelled by keeping only four little-endian base-256
  digits.  The `operations: u32` counter is a plain `Nat`: it is reset to
  `0` whenever it passes `10_000`, so `u32` wrap-around is unreachable.
* I/O is reliable in the model: opening/seeking/reading/writing a file
  that exists never fails spontaneously.  The only failures are the ones
  the logic itself produces (missing file, short reads, bad payloads).
-/

deriving instance DecidableEq for Except

/-- Byte strings, as lists of naturals. -/
abbrev Bytes := List Nat

/-- The error enum of `error.rs` (`KvsError`); the payloads of the
`IoError`/`SerdeError` variants are dropped. -/
inductive KvsError : Type where
  | UnexpectedEOF : KvsError
  | IoError : KvsError
  | KeyNotFound : KvsError
  | SerdeError : KvsError
deriving DecidableEq, Repr

/-- `KvPair` of `kv.rs`: a log record; `value = none` is a tombstone. -/
structure KvPair where
  key : String
  value : Option String
deriving DecidableEq, Repr

/-- `Offset` of `kv.rs`: where a record's payload lives in the file. -/
structure Offset where
  start : Nat
  len : Nat
deriving DecidableEq, Repr

/-- `KvStore` of `kv.rs` minus the constant `data_file` path: the in-memory
index and the operation counter. -/
structure KvStore where
  offsets : List (String × Offset)
  operations : Nat
deriving DecidableEq, Repr

/-! ## The record codec (`serde_json` for `KvPair`, then UTF-8) -/

/-- UTF-8 encoding of one scalar value. -/
def utf8EncodeChar (c : Char) : Bytes :=
  let v := c.toNat
  if v < 128 then [v]
  else if v < 2048 then [192 + v / 64, 128 + v % 64]
  else if v < 65536 then [224 + v / 4096, 128 + v / 64 % 64, 128 + v % 64]
  else [240 + v / 262144, 128 + v / 4096 % 64, 128 + v / 64 % 64, 128 + v % 64]

/-- UTF-8 encoding of a character sequence. -/
def utf8Encode (s : List Char) : Bytes :=
  (s.map utf8EncodeChar).flatten

/-- One step of UTF-8 decoding, with fuel (one unit per scalar; a scalar
consumes at least one byte, so the byte length is always enough fuel).
Strict: rejects overlong forms, surrogates and out-of-range values, as
Rust's `String` type does.  Missing continuation bytes are modelled by a
default head of 999, which fails the `128 ≤ b < 192` test exactly when
the real continuation byte is absent. -/
def utf8DecodeF : Nat → Bytes → Option (List Char)
  | _, [] => some []
  | 0, _ :: _ => none
  | fuel + 1, b :: bs =>
    if b < 128 then (utf8DecodeF fuel bs).map (fun cs => Char.ofNat b :: cs)
    else if b < 194 then none
    else if b < 224 then
      let b1 := bs.headD 999
      if 128 ≤ b1 ∧ b1 < 192 then
        (utf8DecodeF fuel (bs.drop 1)).map (fun cs => Char.ofNat ((b - 192) * 64 + (b1 - 128)) :: cs)
      else none
    else if b < 240 then
      let b1 := bs.headD 999
      let b2 := (bs.drop 1).headD 999
      if (128 ≤ b1 ∧ b1 < 192) ∧ (128 ≤ b2 ∧ b2 < 192) then
        let v := (b - 224) * 4096 + (b1 - 128) * 64 + (b2 - 128)
        if 2048 ≤ v ∧ ¬ (55296 ≤ v ∧ v ≤ 57343) then
          (utf8DecodeF fuel (bs.drop 2)).map (fun cs => Char.ofNat v :: cs)
        else none
      else none
    else if b < 245 then
      let b1 := bs.headD 999
      let b2 := (bs.drop 1).headD 999
      let b3 := (bs.drop 2).headD 999
      if (128 ≤ b1 ∧ b1 < 192) ∧ (128 ≤ b2 ∧ b2 < 192) ∧ (128 ≤ b3 ∧ b3 < 192) then
        let v := (b - 240) * 262144 + (b1 - 128) * 4096 + (b2 - 128) * 64 + (b3 - 128)
        if 65536 ≤ v ∧ v ≤ 1114111 then
          (utf8DecodeF fuel (bs.drop 3)).map (fun cs => Char.ofNat v :: cs)
        else none
      else none
    else none

/-- UTF-8 decoding of a byte string. -/
def utf8Decode (bs : Bytes) : Option (List Char) :=
  utf8DecodeF bs.length bs

/-- Lower-case hex digit, as `serde_json` prints in `\u00XX` escapes. -/
def hexDigit (n : Nat) : Char :=
  if n < 10 then Char.ofNat (48 + n) else Char.ofNat (87 + n)

/-- The JSON string escape for one character, exactly as `serde_json`
writes it: `"` and `\` get a backslash escape, the control characters
`\b \t \n \f \r` get their short escapes, the remaining control
characters become `\u00XX`, everything else is passed through. -/
def escapeChar (c : Char) : List Char :=
  if c = '"' then ['\\', '"']
  else if c = '\\' then ['\\', '\\']
  else if c.toNat = 8 then ['\\', 'b']
  else if c.toNat = 9 then ['\\', 't']
  else if c.toNat = 10 then ['\\', 'n']
  else if c.toNat = 12 then ['\\', 'f']
  else if c.toNat = 13 then ['\\', 'r']
  else if c.toNat < 32 then
    ['\\', 'u', '0', '0', hexDigit (c.toNat / 16), hexDigit (c.toNat % 16)]
  else [c]

/-- A JSON string literal (`serde_json` serialization of a `String`). -/
def encodeStringJ (s : List Char) : List Char :=
  '"' :: (s.map escapeChar).flatten ++ ['"']

/-- `serde_json::to_string` of a `KvPair` (fields in declaration order;
`None` prints as `null`). -/
def jsonEncodePair (p : KvPair) : List Char :=
  ("\x7b\x22key\x22:").data ++ encodeStringJ p.key.data
    ++ (",\x22value\x22:").data
    ++ (match p.value with
        | none => ("null").data
        | some v => encodeStringJ v.data)
    ++ ("\x7d").data

/-- `serde_json::to_string(&pair)?.into_bytes()`. -/
def encodeBytes (p : KvPair) : Bytes :=
  utf8Encode (jsonEncodePair p)

/-- Numeric value of a hex digit character, if it is one. -/
def hexVal (c : Char) : Option Nat :=
  if 48 ≤ c.toNat ∧ c.toNat ≤ 57 then some (c.toNat - 48)
  else if 97 ≤ c.toNat ∧ c.toNat ≤ 102 then some (c.toNat - 87)
  else if 65 ≤ c.toNat ∧ c.toNat ≤ 70 then some (c.toNat - 55)
  else none

/-- The four-hex-digit value after a `\\u` escape, if present (missing
characters default to NUL, which is not a hex digit, so a short input
yields `none` exactly as a real short read would). -/
def hex4 (l : List Char) : Option Nat :=
  match hexVal (l.headD (Char.ofNat 0)), hexVal ((l.drop 1).headD (Char.ofNat 0)),
        hexVal ((l.drop 2).headD (Char.ofNat 0)), hexVal ((l.drop 3).headD (Char.ofNat 0)) with
  | some v1, some v2, some v3, some v4 => some (v1 * 4096 + v2 * 256 + v3 * 16 + v4)
  | _, _, _, _ => none

/-- Decode one escape sequence (the part after the backslash): the
decoded character and how many input characters it consumes; `none` for
an invalid or truncated escape (a missing character is modelled by a NUL
default, which fails every test exactly as exhausted input does). -/
def unescape1 (rest : List Char) : Option (Char × Nat) :=
  let e := rest.headD (Char.ofNat 0)
  if e = '"' then some ('"', 1)
  else if e = '\\' then some ('\\', 1)
  else if e = '/' then some ('/', 1)
  else if e = 'b' then some (Char.ofNat 8, 1)
  else if e = 't' then some (Char.ofNat 9, 1)
  else if e = 'n' then some (Char.ofNat 10, 1)
  else if e = 'f' then some (Char.ofNat 12, 1)
  else if e = 'r' then some (Char.ofNat 13, 1)
  else if e = 'u' then
    let v := (hex4 (rest.drop 1)).getD 65536
    if 65536 ≤ v then none
    else if 55296 ≤ v ∧ v ≤ 57343 then none
    else some (Char.ofNat v, 5)
  else none

/-- Parse the body of a JSON string (after the opening quote) up to and
including the closing quote, with fuel (one unit per decoded character;
a decoded character consumes at least one input character, so the input
length is always enough fuel); returns the decoded characters and the
rest of the input.  Handles the escapes `serde_json` accepts (minus
surrogate pairs, which never arise in frames this program writes). -/
def parseStrF : Nat → List Char → Option (List Char × List Char)
  | _, [] => none
  | 0, _ :: _ => none
  | fuel + 1, c :: rest =>
    if c = '"' then some ([], rest)
    else if c = '\\' then
      match unescape1 rest with
      | none => none
      | some dn => (parseStrF fuel (rest.drop dn.2)).map (fun r => (dn.1 :: r.1, r.2))
    else if c.toNat < 32 then none
    else (parseStrF fuel rest).map (fun r => (c :: r.1, r.2))

/-- Parse a JSON string body, fuel instantiated with the input length. -/
def parseStringBody (s : List Char) : Option (List Char × List Char) :=
  parseStrF s.length s

/-- Expect a literal character sequence at the head of the input. -/
def expectChars : List Char → List Char → Option (List Char)
  | [], s => some s
  | c :: cs, s =>
    match s with
    | [] => none
    | d :: s2 => if d = c then expectChars cs s2 else none

/-- Parse a JSON string literal (including its opening quote). -/
def parseJString (s : List Char) : Option (List Char × List Char) :=
  match s with
  | '"' :: r => parseStringBody r
  | _ => none

/-- Parse the `value` position: `null` or a string literal. -/
def parseValue (s : List Char) : Option (Option (List Char) × List Char) :=
  match s with
  | 'n' :: 'u' :: 'l' :: 'l' :: r => some (none, r)
  | '"' :: r => (parseStringBody r).map (fun t => (some t.1, t.2))
  | _ => none

/-- Parse the canonical serialization of a `KvPair`, requiring the whole
input to be consumed (`serde_json::from_slice` semantics on the frames
this program writes). -/
def parsePair (s : List Char) : Option KvPair := do
  let r1 ← expectChars ("\x7b\x22key\x22:").data s
  let kr ← parseJString r1
  let r3 ← expectChars (",\x22value\x22:").data kr.2
  let vr ← parseValue r3
  let r5 ← expectChars ("\x7d").data vr.2
  if r5 = [] then some ⟨String.mk kr.1, vr.1.map String.mk⟩ else none

/-- `serde_json::from_slice::<KvPair>` on a frame payload. -/
def decodeBytes (bs : Bytes) : Option KvPair :=
  (utf8Decode bs).bind parsePair

/-! ## Little-endian `u32`, files, the index -/

/-- `u32::to_le_bytes (n as u32)`. -/
def u32le (n : Nat) : Bytes :=
  [n % 256, n / 256 % 256, n / 65536 % 256, n / 16777216 % 256]

/-- `u32::from_le_bytes [a, b, c, d] as usize`. -/
def u32ofLE4 (a b c d : Nat) : Nat :=
  a + b * 256 + c * 65536 + d * 16777216

/-- A full frame: 4-byte little-endian length prefix, then the payload. -/
def frameOf (payload : Bytes) : Bytes :=
  u32le payload.length ++ payload

/-- `file.seek(SeekFrom::Start start)` then `read_exact` of `len` bytes:
succeeds exactly when the requested range is inside the file. -/
def readExact (file : Bytes) (start len : Nat) : Option Bytes :=
  if start + len ≤ file.length then some ((file.drop start).take len) else none

/-- `HashMap::insert` on the association list (replace in place, else add). -/
def insertA : List (String × Offset) → String → Offset → List (String × Offset)
  | [], k, v => [(k, v)]
  | (k1, v1) :: rest, k, v =>
    if k1 = k then (k1, v) :: rest else (k1, v1) :: insertA rest k v

/-- `HashMap::remove` on the association list. -/
def removeA (l : List (String × Offset)) (k : String) : List (String × Offset) :=
  l.filter (fun e => e.1 ≠ k)

/-- `HashMap::get` on the association list. -/
def lookupA : List (String × Offset) → String → Option Offset
  | [], _ => none
  | (k1, v1) :: rest, k => if k1 = k then some v1 else lookupA rest k

/-! ## The store operations (`kv.rs`) -/

/-- `Compaction runs after every 1000 operations` says the comment; the
code tests `self.operations > 10_000`. -/
def THRESHOLD : Nat := 10000

/-- The for-loop body of `KvStore::compaction`: read every indexed
location from the current file and emit a freshly prefixed frame for it;
a failed read aborts with `IoError` (`input.read_exact(..)?`). -/
def compactionGo (file : Bytes) : List (String × Offset) → Bytes → Except KvsError Bytes
  | [], acc => .ok acc
  | (_, off) :: rest, acc =>
    match readExact file off.start off.len with
    | none => .error .IoError
    | some data => compactionGo file rest (acc ++ u32le off.len ++ data)

/-- `KvStore::compaction`: build the compacted file from the index; on
success the result atomically replaces the log (the rename).  Note that
the function touches neither `offsets` nor `operations`. -/
def compactionFn (offs : List (String × Offset)) (file : Bytes) : Except KvsError Bytes :=
  compactionGo file offs []

/-- The log file after `append` wrote its frame (`create(true)` makes the
file exist if it did not). -/
def appendedFile (fs : Option Bytes) (k : String) (val : Option String) : Bytes :=
  (fs.getD []) ++ frameOf (encodeBytes ⟨k, val⟩)

/-- The index after `append` updated it: a live value is inserted at the
new frame's payload location, a tombstone removes the key. -/
def appendedOffsets (st : KvStore) (fs : Option Bytes) (k : String) (val : Option String) :
    List (String × Offset) :=
  if val.isSome then
    insertA st.offsets k ⟨(fs.getD []).length + 4, (encodeBytes ⟨k, val⟩).length⟩
  else removeA st.offsets k

/-- `KvStore::append`.  The triple is (result, final store, final file):
like the Rust `&mut self` method, the state mutations persist even when
the result is an error (the compaction error is returned by `?` after the
frame was already written, the index updated and the counter bumped). -/
def appendOp (st : KvStore) (fs : Option Bytes) (k : String) (val : Option String) :
    Except KvsError Unit × KvStore × Option Bytes :=
  let offs2 := appendedOffsets st fs k val
  let file2 := appendedFile fs k val
  let ops2 := st.operations + 1
  if ops2 > THRESHOLD then
    match compactionFn offs2 file2 with
    | .error e => (.error e, ⟨offs2, ops2⟩, some file2)
    | .ok newFile => (.ok (), ⟨offs2, 0⟩, some newFile)
  else (.ok (), ⟨offs2, ops2⟩, some file2)

/-- `KvStore::set`. -/
def setOp (st : KvStore) (fs : Option Bytes) (k v : String) :
    Except KvsError Unit × KvStore × Option Bytes :=
  appendOp st fs k (some v)

/-- `KvStore::remove`: only appends a tombstone when the key is present,
otherwise fails with `KeyNotFound` and changes nothing. -/
def removeOp (st : KvStore) (fs : Option Bytes) (k : String) :
    Except KvsError Unit × KvStore × Option Bytes :=
  if (lookupA st.offsets k).isSome then appendOp st fs k none
  else (.error .KeyNotFound, st, fs)

/-- `KvStore::get`: an index miss is `Ok(None)`; a hit opens the file
(`IoError` if it does not exist), seeks, reads exactly `len` bytes
(`IoError` on a short read) and deserializes (`SerdeError` on a bad
payload). -/
def getOp (st : KvStore) (fs : Option Bytes) (k : String) :
    Except KvsError (Option String) :=
  match lookupA st.offsets k with
  | none => .ok none
  | some off =>
    match fs with
    | none => .error .IoError
    | some file =>
      match readExact file off.start off.len with
      | none => .error .IoError
      | some bytes =>
        match decodeBytes bytes with
        | none => .error .SerdeError
        | some pair => .ok pair.value

/-- The scan loop of `KvStore::open`, with explicit fuel (one unit per
frame; `open` passes the file length, and a frame consumes at least four
bytes, so the fuel can never run out there).  A truncated length prefix
(1–3 trailing bytes) makes `read_exact(&mut size_buffer)` fail and the
loop returns `Err(IoError(err))`; a truncated payload makes
`reader.read_exact(&mut data_buffer)?` fail, also with `IoError`; a bad
payload fails with `SerdeError` (via `From<serde_json::Error>`). -/
def scanStep : Nat → Bytes → Nat → List (String × Offset) →
    Except KvsError (List (String × Offset))
  | _, [], _, idx => .ok idx
  | fuel + 1, a :: b :: c :: d :: rest, offset, idx =>
    let size := u32ofLE4 a b c d
    if rest.length < size then .error .IoError
    else
      match decodeBytes (rest.take size) with
      | none => .error .SerdeError
      | some pair =>
        scanStep fuel (rest.drop size) (offset + 4 + size)
          (if pair.value.isSome then insertA idx pair.key ⟨offset + 4, size⟩
           else removeA idx pair.key)
  | _ + 1, _, _, _ => .error .IoError
  | 0, _ :: _, _, _ => .error .IoError

/-- `KvStore::open`: a missing `database` file yields an empty store;
otherwise the log is replayed from offset 0 to rebuild the index, and the
counter starts at 0. -/
def openStore (fs : Option Bytes) : Except KvsError KvStore :=
  match fs with
  | none => .ok ⟨[], 0⟩
  | some file => (scanStep file.length file 0 []).map (fun idx => ⟨idx, 0⟩)

/-! ## Operation sequences -/

/-- A mutating operation request. -/
inductive Op : Type where
  | set : String → String → Op
  | remove : String → Op
deriving DecidableEq, Repr

/-- Run one operation against (store, file). -/
def runOp : Op → KvStore × Option Bytes → Except KvsError Unit × KvStore × Option Bytes
  | .set k v, s => setOp s.1 s.2 k v
  | .remove k, s => removeOp s.1 s.2 k

/-- Run a sequence of operations, requiring every one of them to succeed
(`none` if any fails). -/
def runAll : List Op → KvStore × Option Bytes → Option (KvStore × Option Bytes)
  | [], s => some s
  | op :: ops, s =>
    match runOp op s with
    | (.ok _, st, fs) => runAll ops (st, fs)
    | (.error _, _, _) => none

/-- The key an operation touches. -/
def opKey : Op → String
  | .set k _ => k
  | .remove k => k

/-- The value an operation writes (`none` for the tombstone). -/
def opVal : Op → Option String
  | .set _ v => some v
  | .remove _ => none

/-! ## Spec-side vocabulary (for stating claims about the log) -/

/-- Split a log into its frame payloads, in order, with fuel as in
`scanStep`; a malformed tail contributes nothing.  This formalizes the
spec's notion of "the Records in the log, in log order". -/
def framesOfF : Nat → Bytes → List Bytes
  | fuel + 1, a :: b :: c :: d :: rest =>
    let size := u32ofLE4 a b c d
    if rest.length < size then []
    else rest.take size :: framesOfF fuel (rest.drop size)
  | _, _ => []

/-- The frame payloads of a log file. -/
def framesOf (file : Bytes) : List Bytes :=
  framesOfF file.length file

/-- The most recent decoded record for a key, in log order. -/
def lastRecordFor (file : Bytes) (k : String) : Option KvPair :=
  (((framesOf file).filterMap decodeBytes).filter (fun p => p.key = k)).getLast?

/-- A log consisting of whole, well-formed frames for the given records. -/
def encodedLog (ps : List KvPair) : Bytes :=
  (ps.map (fun p => frameOf (encodeBytes p))).flatten

/-- A partial (truncated) final frame: nonempty, and either the length
prefix itself is short of 4 bytes or the payload is shorter than the
prefix announces. -/
def isPartialTail (t : Bytes) : Bool :=
  match t with
  | [] => false
  | a :: b :: c :: d :: r => decide (r.length < u32ofLE4 a b c d)
  | _ => true


/-! ## A concrete workload (used by several theorems below)

Three writes to `"k"` (the last two shadowing earlier ones) followed by
9998 writes to `"z"`: the 9998th write raises the operation counter to
10001 and triggers compaction.  The index entry for `"k"` points at byte
67 of the old log, the compacted log is only 104 bytes long, and the code
never updates the index during compaction. -/

/-- Ten `b`s. -/
def b10s : String := "bbbbbbbbbb"

/-- Fifty `b`s: long enough that the stale location of `"k"` ends beyond
the compacted log. -/
def b50s : String := String.mk (List.replicate 50 'b')

/-- Payload of the surviving `"k"` record. -/
def pk3 : Bytes := encodeBytes ⟨"k", some b50s⟩

/-- Payload of a `"z"` record. -/
def pzz : Bytes := encodeBytes ⟨"z", some "ww"⟩

/-- Payload of a `"y"` record. -/
def pyw : Bytes := encodeBytes ⟨"y", some "w"⟩

/-- The state `open` returns on a directory with no `database` file. -/
def initS : KvStore × Option Bytes := (⟨[], 0⟩, none)

/-- The three writes to `"k"`. -/
def kOps : List Op := [.set "k" "a", .set "k" b10s, .set "k" b50s]

/-- The store after `kOps`: one live key at location (67, 72). -/
def st3 : KvStore := ⟨[("k", ⟨67, 72⟩)], 3⟩

/-- The log after `kOps` (three frames, 139 bytes). -/
def f3 : Bytes := frameOf (encodeBytes ⟨"k", some "a"⟩)
  ++ frameOf (encodeBytes ⟨"k", some b10s⟩) ++ frameOf pk3

/-- `kOps`, then 9998 writes to `"z"`; the last one triggers compaction. -/
def phase1Ops : List Op := kOps ++ (List.replicate 9997 (Op.set "z" "ww") ++ [Op.set "z" "ww"])

/-- The store `phase1Ops` leaves behind: the counter was reset, but both
index entries still point into the log that compaction just replaced. -/
def stF : KvStore := ⟨[("k", ⟨67, 72⟩), ("z", ⟨280059, 24⟩)], 0⟩

/-- The 104-byte compacted log `phase1Ops` leaves behind. -/
def nf1 : Bytes := u32le 72 ++ pk3 ++ u32le 24 ++ pzz

/-- Phase 2a: after `phase1Ops`, another 10001 writes to `"z"`; the last
one triggers a second compaction, which copies 72 bytes from the stale
location (67, 72) — garbage that is not a record of `"k"` — into the new
log while `"k"` stays in the index. -/
def phase2aOps : List Op :=
  phase1Ops ++ (List.replicate 10000 (Op.set "z" "ww") ++ [Op.set "z" "ww"])

/-- Phase 2b: after `phase1Ops`, 10000 writes to `"y"`.  The next
`remove "y"` then triggers a compaction that reads the stale location of
`"z"` (280059, 24), far beyond the current 270132-byte log, and fails. -/
def phase2bOps : List Op := phase1Ops ++ List.replicate 10000 (Op.set "y" "w")

/-- The 72 garbage bytes the second compaction copies for `"k"`: bytes
67..139 of the current log, which there consist of the tail of the old
`"k"` payload and pieces of `"z"` frames. -/
def g72 : Bytes := List.take 72 (List.drop 67 (nf1 ++ (frameOf pzz ++ frameOf pzz)))

/-- The log after the second compaction of phase 2a. -/
def file3 : Bytes := u32le 72 ++ (g72 ++ (u32le 24 ++ pzz))

/-- The store after `phase2aOps`. -/
def st5 : KvStore := ⟨[("k", ⟨67, 72⟩), ("z", ⟨280108, 24⟩)], 0⟩

/-! ## Codec lemmas: the round trip -/

lemma charValid (c : Char) : c.toNat < 55296 ∨ (57343 < c.toNat ∧ c.toNat < 1114112) :=
  c.valid

lemma utf8DecodeF_encodeChar (c : Char) (rest : Bytes) (fuel : Nat) :
    utf8DecodeF (fuel + 1) (utf8EncodeChar c ++ rest) =
      (utf8DecodeF fuel rest).map (fun cs => c :: cs) := by
  have hv := charValid c
  have hofn : Char.ofNat c.toNat = c := Char.ofNat_toNat c
  unfold utf8EncodeChar
  by_cases h1 : c.toNat < 128
  · simp only [if_pos h1, List.cons_append, List.nil_append, utf8DecodeF, hofn]
  by_cases h2 : c.toNat < 2048
  · have e1 : ¬ (192 + c.toNat / 64 < 128) := by omega
    have e2 : ¬ (192 + c.toNat / 64 < 194) := by omega
    have e3 : 192 + c.toNat / 64 < 224 := by omega
    have e4 : 128 ≤ 128 + c.toNat % 64 ∧ 128 + c.toNat % 64 < 192 := by omega
    have e5 : (192 + c.toNat / 64 - 192) * 64 + (128 + c.toNat % 64 - 128) = c.toNat := by omega
    simp only [if_neg h1, if_pos h2, List.cons_append, List.nil_append, utf8DecodeF,
      List.headD_cons, List.drop_succ_cons, List.drop_zero,
      if_neg e1, if_neg e2, if_pos e3, if_pos e4, e5, hofn]
  by_cases h3 : c.toNat < 65536
  · have e1 : ¬ (224 + c.toNat / 4096 < 128) := by omega
    have e2 : ¬ (224 + c.toNat / 4096 < 194) := by omega
    have e3 : ¬ (224 + c.toNat / 4096 < 224) := by omega
    have e4 : 224 + c.toNat / 4096 < 240 := by omega
    have e5 : (128 ≤ 128 + c.toNat / 64 % 64 ∧ 128 + c.toNat / 64 % 64 < 192) ∧
        (128 ≤ 128 + c.toNat % 64 ∧ 128 + c.toNat % 64 < 192) := by omega
    have recon : (224 + c.toNat / 4096 - 224) * 4096 + (128 + c.toNat / 64 % 64 - 128) * 64 +
        (128 + c.toNat % 64 - 128) = c.toNat := by omega
    have e6 : 2048 ≤ c.toNat ∧ ¬ (55296 ≤ c.toNat ∧ c.toNat ≤ 57343) := by omega
    simp only [if_neg h1, if_neg h2, if_pos h3, List.cons_append, List.nil_append, utf8DecodeF,
      List.headD_cons, List.drop_succ_cons, List.drop_zero,
      if_neg e1, if_neg e2, if_neg e3, if_pos e4, if_pos e5, recon, if_pos e6, hofn]
  · have e1 : ¬ (240 + c.toNat / 262144 < 128) := by omega
    have e2 : ¬ (240 + c.toNat / 262144 < 194) := by omega
    have e3 : ¬ (240 + c.toNat / 262144 < 224) := by omega
    have e4 : ¬ (240 + c.toNat / 262144 < 240) := by omega
    have e5 : 240 + c.toNat / 262144 < 245 := by omega
    have e6 : (128 ≤ 128 + c.toNat / 4096 % 64 ∧ 128 + c.toNat / 4096 % 64 < 192) ∧
        (128 ≤ 128 + c.toNat / 64 % 64 ∧ 128 + c.toNat / 64 % 64 < 192) ∧
        (128 ≤ 128 + c.toNat % 64 ∧ 128 + c.toNat % 64 < 192) := by omega
    have recon : (240 + c.toNat / 262144 - 240) * 262144 + (128 + c.toNat / 4096 % 64 - 128) * 4096 +
        (128 + c.toNat / 64 % 64 - 128) * 64 + (128 + c.toNat % 64 - 128) = c.toNat := by omega
    have e7 : 65536 ≤ c.toNat ∧ c.toNat ≤ 1114111 := by omega
    simp only [if_neg h1, if_neg h2, if_neg h3, List.cons_append, List.nil_append, utf8DecodeF,
      List.headD_cons, List.drop_succ_cons, List.drop_zero,
      if_neg e1, if_neg e2, if_neg e3, if_neg e4, if_pos e5, if_pos e6, recon, if_pos e7, hofn]

lemma utf8DecodeF_encode_append (s : List Char) (rest : Bytes) (fuel : Nat) :
    utf8DecodeF (s.length + fuel) (utf8Encode s ++ rest) =
      (utf8DecodeF fuel rest).map (fun cs => s ++ cs) := by
  induction s with
  | nil =>
    simp only [utf8Encode, List.map_nil, List.flatten_nil, List.nil_append,
      List.length_nil, Nat.zero_add]
    cases utf8DecodeF fuel rest <;> rfl
  | cons c s ih =>
    have hstep : utf8Encode (c :: s) = utf8EncodeChar c ++ utf8Encode s := by
      simp [utf8Encode]
    have hlen : (c :: s).length + fuel = (s.length + fuel) + 1 := by
      simp [List.length_cons]; omega
    rw [hstep, List.append_assoc, hlen, utf8DecodeF_encodeChar, ih, Option.map_map]
    rfl

lemma utf8EncodeChar_len_pos (c : Char) : 1 ≤ (utf8EncodeChar c).length := by
  unfold utf8EncodeChar
  by_cases h1 : c.toNat < 128
  · simp [h1]
  by_cases h2 : c.toNat < 2048
  · simp [h1, h2]
  by_cases h3 : c.toNat < 65536
  · simp [h1, h2, h3]
  · simp [h1, h2, h3]

lemma utf8Encode_len_ge (s : List Char) : s.length ≤ (utf8Encode s).length := by
  induction s with
  | nil => simp [utf8Encode]
  | cons c s ih =>
    have h1 := utf8EncodeChar_len_pos c
    have hstep : utf8Encode (c :: s) = utf8EncodeChar c ++ utf8Encode s := by
      simp [utf8Encode]
    rw [hstep]
    simp only [List.length_append, List.length_cons]
    omega

lemma utf8_roundtrip (s : List Char) : utf8Decode (utf8Encode s) = some s := by
  have hge := utf8Encode_len_ge s
  have hsplit : (utf8Encode s).length = s.length + ((utf8Encode s).length - s.length) := by
    omega
  have h := utf8DecodeF_encode_append s [] ((utf8Encode s).length - s.length)
  unfold utf8Decode
  rw [hsplit, ← List.append_nil (utf8Encode s)]
  simp only [List.length_append, List.length_nil, Nat.add_zero] at h ⊢
  rw [h]
  simp [utf8DecodeF]

lemma hexVal_hexDigit (n : Nat) (h : n < 16) : hexVal (hexDigit n) = some n := by
  interval_cases n <;> decide

lemma charToNat_inj (c d : Char) (h : c.toNat = d.toNat) : c = d := by
  have hc := Char.ofNat_toNat c
  have hd := Char.ofNat_toNat d
  rw [← hc, h, hd]


lemma parseStrF_escape (s rest : List Char) (fuel : Nat) :
    parseStrF (s.length + (fuel + 1)) ((s.map escapeChar).flatten ++ ('"' :: rest))
      = some (s, rest) := by
  induction s generalizing fuel with
  | nil => simp [parseStrF]
  | cons c s ih =>
    have hflat : ((c :: s).map escapeChar).flatten
        = escapeChar c ++ (s.map escapeChar).flatten := by simp
    have hlen : (c :: s).length + (fuel + 1) = (s.length + (fuel + 1)) + 1 := by
      simp only [List.length_cons]; omega
    rw [hflat, hlen]
    by_cases hq : c = '"'
    · subst hq
      have hesc : escapeChar '"' = ['\\', '"'] := by decide
      rw [hesc, List.append_assoc]
      simp [parseStrF, unescape1, ih]
    by_cases hb : c = '\\'
    · subst hb
      have hesc : escapeChar '\\' = ['\\', '\\'] := by decide
      rw [hesc, List.append_assoc]
      simp [parseStrF, unescape1, ih]
    by_cases h8 : c.toNat = 8
    · have hc : c = Char.ofNat 8 := charToNat_inj c (Char.ofNat 8) (by rw [h8]; decide)
      have hesc : escapeChar c = ['\\', 'b'] := by
        unfold escapeChar; rw [if_neg hq, if_neg hb, if_pos h8]
      rw [hesc, List.append_assoc]
      simp [parseStrF, unescape1, ih, hc]
    by_cases h9 : c.toNat = 9
    · have hc : c = Char.ofNat 9 := charToNat_inj c (Char.ofNat 9) (by rw [h9]; decide)
      have hesc : escapeChar c = ['\\', 't'] := by
        unfold escapeChar; rw [if_neg hq, if_neg hb, if_neg h8, if_pos h9]
      rw [hesc, List.append_assoc]
      simp [parseStrF, unescape1, ih, hc]
    by_cases h10 : c.toNat = 10
    · have hc : c = Char.ofNat 10 := charToNat_inj c (Char.ofNat 10) (by rw [h10]; decide)
      have hesc : escapeChar c = ['\\', 'n'] := by
        unfold escapeChar; rw [if_neg hq, if_neg hb, if_neg h8, if_neg h9, if_pos h10]
      rw [hesc, List.append_assoc]
      simp [parseStrF, unescape1, ih, hc]
    by_cases h12 : c.toNat = 12
    · have hc : c = Char.ofNat 12 := charToNat_inj c (Char.ofNat 12) (by rw [h12]; decide)
      have hesc : escapeChar c = ['\\', 'f'] := by
        unfold escapeChar; rw [if_neg hq, if_neg hb, if_neg h8, if_neg h9, if_neg h10, if_pos h12]
      rw [hesc, List.append_assoc]
      simp [parseStrF, unescape1, ih, hc]
    by_cases h13 : c.toNat = 13
    · have hc : c = Char.ofNat 13 := charToNat_inj c (Char.ofNat 13) (by rw [h13]; decide)
      have hesc : escapeChar c = ['\\', 'r'] := by
        unfold escapeChar
        rw [if_neg hq, if_neg hb, if_neg h8, if_neg h9, if_neg h10, if_neg h12, if_pos h13]
      rw [hesc, List.append_assoc]
      simp [parseStrF, unescape1, ih, hc]
    by_cases hlt : c.toNat < 32
    · have hc : Char.ofNat c.toNat = c := Char.ofNat_toNat c
      have hv1 : hexVal (hexDigit (c.toNat / 16)) = some (c.toNat / 16) :=
        hexVal_hexDigit _ (by omega)
      have hv2 : hexVal (hexDigit (c.toNat % 16)) = some (c.toNat % 16) :=
        hexVal_hexDigit _ (by omega)
      have recon : 0 * 4096 + 0 * 256 + c.toNat / 16 * 16 + c.toNat % 16 = c.toNat := by omega
      have hbig : ¬ (65536 ≤ c.toNat) := by omega
      have hsur : ¬ (55296 ≤ c.toNat ∧ c.toNat ≤ 57343) := by omega
      have hesc : escapeChar c
          = ['\\', 'u', '0', '0', hexDigit (c.toNat / 16), hexDigit (c.toNat % 16)] := by
        unfold escapeChar
        rw [if_neg hq, if_neg hb, if_neg h8, if_neg h9, if_neg h10, if_neg h12, if_neg h13,
          if_pos hlt]
      have hz : hexVal '0' = some 0 := by decide
      have recon2 : c.toNat / 16 * 16 + c.toNat % 16 = c.toNat := by omega
      rw [hesc, List.append_assoc]
      simp [parseStrF, unescape1, hex4, hz, hv1, hv2, recon, recon2, hbig, hsur, ih, hc]
    · have hesc : escapeChar c = [c] := by
        unfold escapeChar
        rw [if_neg hq, if_neg hb, if_neg h8, if_neg h9, if_neg h10, if_neg h12, if_neg h13,
          if_neg hlt]
      rw [hesc, List.append_assoc]
      simp [parseStrF, hq, hb, hlt, ih]

lemma escapeChar_len_pos (c : Char) : 1 ≤ (escapeChar c).length := by
  unfold escapeChar
  split_ifs <;> simp

lemma escape_flatten_len_ge (s : List Char) : s.length ≤ ((s.map escapeChar).flatten).length := by
  induction s with
  | nil => simp
  | cons c s ih =>
    have h1 := escapeChar_len_pos c
    simp only [List.map_cons, List.flatten_cons, List.length_append, List.length_cons]
    omega

lemma parseStringBody_escape (s rest : List Char) :
    parseStringBody ((s.map escapeChar).flatten ++ ('"' :: rest)) = some (s, rest) := by
  unfold parseStringBody
  have hge := escape_flatten_len_ge s
  have hlen : (((s.map escapeChar).flatten ++ ('"' :: rest))).length
      = s.length + ((((s.map escapeChar).flatten).length - s.length + rest.length) + 1) := by
    simp only [List.length_append, List.length_cons]; omega
  rw [hlen, parseStrF_escape]

lemma expectChars_append (cs s : List Char) : expectChars cs (cs ++ s) = some s := by
  induction cs with
  | nil => rfl
  | cons c cs ih => simp [expectChars, ih]

lemma expectChars_self (cs : List Char) : expectChars cs cs = some [] := by
  have h := expectChars_append cs []
  simpa using h

lemma parseJString_encode (s rest : List Char) :
    parseJString (encodeStringJ s ++ rest) = some (s, rest) := by
  have h : encodeStringJ s ++ rest = '"' :: ((s.map escapeChar).flatten ++ ('"' :: rest)) := by
    simp [encodeStringJ]
  rw [h]
  unfold parseJString
  exact parseStringBody_escape s rest

lemma stringMk_data (s : String) : String.mk s.data = s := rfl

lemma parsePair_encode (p : KvPair) : parsePair (jsonEncodePair p) = some p := by
  obtain ⟨k, v⟩ := p
  unfold jsonEncodePair parsePair
  cases v with
  | none =>
    simp [expectChars, parseValue, parseJString_encode, stringMk_data]
  | some w =>
    have hval : encodeStringJ w.data ++ ['\x7d']
        = '"' :: ((w.data.map escapeChar).flatten ++ ('"' :: ['\x7d'])) := by
      simp [encodeStringJ]
    simp [expectChars, parseValue, parseJString_encode, hval, parseStringBody_escape, stringMk_data]

lemma decode_encode (p : KvPair) : decodeBytes (encodeBytes p) = some p := by
  unfold decodeBytes encodeBytes
  rw [utf8_roundtrip]
  simpa using parsePair_encode p

/-! ## Store-operation lemmas -/

lemma insertA_insertA (l : List (String × Offset)) (k : String) (v1 v2 : Offset) :
    insertA (insertA l k v1) k v2 = insertA l k v2 := by
  induction l with
  | nil => simp [insertA]
  | cons e rest ih =>
    obtain ⟨k1, w⟩ := e
    by_cases h : k1 = k
    · simp [insertA, h]
    · simp [insertA, h, ih]

lemma flatten_replicate_length (n : Nat) (l : Bytes) :
    (List.replicate n l).flatten.length = n * l.length := by
  induction n with
  | zero => simp
  | succ n ih =>
    simp only [List.replicate_succ, List.flatten_cons, List.length_append, ih, Nat.succ_mul]
    omega

lemma frameOf_length (p : Bytes) : (frameOf p).length = 4 + p.length := by
  simp [frameOf, u32le]
  omega

lemma appendOp_no_compact (st : KvStore) (fs : Option Bytes) (k : String) (val : Option String)
    (h : st.operations + 1 ≤ THRESHOLD) :
    appendOp st fs k val = (.ok (), ⟨appendedOffsets st fs k val, st.operations + 1⟩,
      some (appendedFile fs k val)) := by
  unfold appendOp
  rw [if_neg (Nat.not_lt.mpr h)]

lemma setOp_step (st : KvStore) (file : Bytes) (k v : String)
    (h : st.operations + 1 ≤ THRESHOLD) :
    runOp (Op.set k v) (st, some file)
      = (.ok (), ⟨insertA st.offsets k ⟨file.length + 4, (encodeBytes ⟨k, some v⟩).length⟩,
          st.operations + 1⟩, some (file ++ frameOf (encodeBytes ⟨k, some v⟩))) := by
  show setOp st (some file) k v = _
  unfold setOp
  rw [appendOp_no_compact st (some file) k (some v) h]
  unfold appendedOffsets appendedFile
  simp

lemma runAll_append (a b : List Op) (s : KvStore × Option Bytes) :
    runAll (a ++ b) s = (runAll a s).bind (runAll b) := by
  induction a generalizing s with
  | nil => simp [runAll]
  | cons op a ih =>
    simp only [List.cons_append, runAll]
    rcases hr : runOp op s with ⟨res, st2, fs2⟩
    cases res <;> simp [hr, ih]

lemma repAppend (k v : String) (n : Nat) (st : KvStore) (file : Bytes)
    (hn : 1 ≤ n) (hops : st.operations + n ≤ THRESHOLD) :
    runAll (List.replicate n (Op.set k v)) (st, some file) =
      some (⟨insertA st.offsets k
              ⟨file.length + (n - 1) * (4 + (encodeBytes ⟨k, some v⟩).length) + 4,
               (encodeBytes ⟨k, some v⟩).length⟩,
            st.operations + n⟩,
        some (file ++ (List.replicate n (frameOf (encodeBytes ⟨k, some v⟩))).flatten)) := by
  induction n generalizing st file with
  | zero => exact absurd hn (by omega)
  | succ m ih =>
    have hstep := setOp_step st file k v (by omega)
    cases m with
    | zero =>
      simp only [List.replicate_succ, List.replicate_zero, runAll, hstep]
      simp [frameOf]
    | succ m0 =>
      rw [List.replicate_succ]
      have h1 : runAll (Op.set k v :: List.replicate (m0 + 1) (Op.set k v)) (st, some file)
          = runAll (List.replicate (m0 + 1) (Op.set k v))
              (⟨insertA st.offsets k ⟨file.length + 4, (encodeBytes ⟨k, some v⟩).length⟩,
                st.operations + 1⟩, some (file ++ frameOf (encodeBytes ⟨k, some v⟩))) := by
        simp only [runAll, hstep]
      rw [h1, ih _ _ (by omega)
        (by show st.operations + 1 + (m0 + 1) ≤ THRESHOLD; omega)]
      have hflen : (file ++ frameOf (encodeBytes ⟨k, some v⟩)).length
          = file.length + (4 + (encodeBytes ⟨k, some v⟩).length) := by
        simp [frameOf_length]
      rw [insertA_insertA, hflen]
      have harith : file.length + (4 + (encodeBytes ⟨k, some v⟩).length)
            + (m0 + 1 - 1) * (4 + (encodeBytes ⟨k, some v⟩).length) + 4
          = file.length + (m0 + 1 + 1 - 1) * (4 + (encodeBytes ⟨k, some v⟩).length) + 4 := by
        have e1 : m0 + 1 - 1 = m0 := by omega
        have e2 : m0 + 1 + 1 - 1 = m0 + 1 := by omega
        rw [e1, e2]
        ring
      have hops2 : st.operations + 1 + (m0 + 1) = st.operations + (m0 + 1 + 1) := by omega
      have hfile : (file ++ frameOf (encodeBytes ⟨k, some v⟩))
            ++ (List.replicate (m0 + 1) (frameOf (encodeBytes ⟨k, some v⟩))).flatten
          = file ++ (List.replicate (m0 + 1 + 1) (frameOf (encodeBytes ⟨k, some v⟩))).flatten := by
        simp [List.append_assoc, List.replicate_succ]
      rw [harith, hops2, hfile]

lemma run_kOps : runAll kOps initS = some (st3, some f3) := by decide

lemma appendOp_compact (st : KvStore) (fs : Option Bytes) (k : String) (val : Option String)
    (nf : Bytes) (h : st.operations + 1 > THRESHOLD)
    (hc : compactionFn (appendedOffsets st fs k val) (appendedFile fs k val) = .ok nf) :
    appendOp st fs k val = (.ok (), ⟨appendedOffsets st fs k val, 0⟩, some nf) := by
  unfold appendOp
  rw [if_pos h, hc]


lemma compactionFn_two (file : Bytes) (k1 k2 : String) (o1 o2 : Offset) (p1 p2 : Bytes)
    (h1 : readExact file o1.start o1.len = some p1)
    (h2 : readExact file o2.start o2.len = some p2) :
    compactionFn [(k1, o1), (k2, o2)] file
      = .ok (u32le o1.len ++ (p1 ++ (u32le o2.len ++ p2))) := by
  unfold compactionFn
  simp only [compactionGo, h1, h2]
  simp [List.append_assoc]

lemma phase1_read1 :
    readExact ((f3 ++ (List.replicate 9997 (frameOf pzz)).flatten) ++ frameOf pzz)
      67 72 = some pk3 := by
  have hf3len : f3.length = 139 := by decide
  have hpzlen : pzz.length = 24 := by decide
  have hflen : ((f3 ++ (List.replicate 9997 (frameOf pzz)).flatten) ++ frameOf pzz).length
      = 280083 := by
    simp only [List.length_append, flatten_replicate_length, frameOf_length, hpzlen, hf3len]
  have hlist1 : List.take 72 (List.drop 67
      ((f3 ++ (List.replicate 9997 (frameOf pzz)).flatten) ++ frameOf pzz)) = pk3 := by
    rewrite [List.append_assoc, List.drop_append_eq_append_drop,
      List.take_append_eq_append_take]
    simp only [hf3len, List.length_drop]
    norm_num
    decide
  unfold readExact
  rewrite [if_pos (by rewrite [hflen]; omega)]
  exact congrArg some hlist1

lemma phase1_read2 :
    readExact ((f3 ++ (List.replicate 9997 (frameOf pzz)).flatten) ++ frameOf pzz)
      280059 24 = some pzz := by
  have hf3len : f3.length = 139 := by decide
  have hpzlen : pzz.length = 24 := by decide
  have hflen : ((f3 ++ (List.replicate 9997 (frameOf pzz)).flatten) ++ frameOf pzz).length
      = 280083 := by
    simp only [List.length_append, flatten_replicate_length, frameOf_length, hpzlen, hf3len]
  have hmidlen : (f3 ++ (List.replicate 9997 (frameOf pzz)).flatten).length = 280055 := by
    simp only [List.length_append, flatten_replicate_length, frameOf_length, hpzlen, hf3len]
  have hlist2 : List.take 24 (List.drop 280059
      ((f3 ++ (List.replicate 9997 (frameOf pzz)).flatten) ++ frameOf pzz)) = pzz := by
    rewrite [List.drop_append_eq_append_drop]
    rewrite [List.drop_eq_nil_of_le (le_of_eq_of_le hmidlen (by omega))]
    rewrite [hmidlen]
    norm_num
    decide
  unfold readExact
  rewrite [if_pos (by rewrite [hflen]; omega)]
  exact congrArg some hlist2

lemma compaction_phase1 :
    compactionFn [("k", (⟨67, 72⟩ : Offset)), ("z", (⟨280059, 24⟩ : Offset))]
      ((f3 ++ (List.replicate 9997 (frameOf pzz)).flatten) ++ frameOf pzz) = .ok nf1 :=
  compactionFn_two _ "k" "z" ⟨67, 72⟩ ⟨280059, 24⟩ pk3 pzz phase1_read1 phase1_read2

lemma zstep_compact (stM : KvStore) (fM : Bytes) (offs2 : List (String × Offset)) (nf : Bytes)
    (hoffs : insertA stM.offsets "z"
        ⟨fM.length + 4, (encodeBytes ⟨"z", some "ww"⟩).length⟩ = offs2)
    (hops : stM.operations + 1 > THRESHOLD)
    (hc : compactionFn offs2 (fM ++ frameOf (encodeBytes ⟨"z", some "ww"⟩)) = .ok nf) :
    runAll [Op.set "z" "ww"] (stM, some fM) = some (⟨offs2, 0⟩, some nf) := by
  have hoff2 : appendedOffsets stM (some fM) "z" (some "ww") = offs2 := by
    rewrite [← hoffs]
    simp [appendedOffsets]
  have hfile2 : appendedFile (some fM) "z" (some "ww")
      = fM ++ frameOf (encodeBytes ⟨"z", some "ww"⟩) := by
    simp [appendedFile]
  have happ := appendOp_compact stM (some fM) "z" (some "ww") nf hops
    (by rewrite [hoff2, hfile2]; exact hc)
  show runAll [Op.set "z" "ww"] (stM, some fM) = _
  simp only [runAll, runOp, setOp, happ, hoff2]

lemma run_phase1 : runAll phase1Ops initS = some (stF, some nf1) := by
  have hpz : encodeBytes ⟨"z", some "ww"⟩ = pzz := rfl
  have hpzlen : pzz.length = 24 := by decide
  have hf3len : f3.length = 139 := by decide
  have hfMidlen : (f3 ++ (List.replicate 9997 (frameOf pzz)).flatten).length = 280055 := by
    simp only [List.length_append, flatten_replicate_length, frameOf_length, hpzlen, hf3len]
  have hmid := repAppend "z" "ww" 9997 st3 f3 (by omega) (by decide)
  rewrite [hpz] at hmid
  show runAll (kOps ++ (List.replicate 9997 (Op.set "z" "ww") ++ [Op.set "z" "ww"])) initS
      = some (stF, some nf1)
  rewrite [runAll_append, run_kOps, Option.some_bind, runAll_append, hmid, Option.some_bind]
  refine (zstep_compact _ _ [("k", ⟨67, 72⟩), ("z", ⟨280059, 24⟩)] nf1 ?hoffs ?hops ?hc).trans ?hfin
  case hoffs =>
    rewrite [hpz, hfMidlen]
    decide
  case hops =>
    show st3.operations + 9997 + 1 > THRESHOLD
    decide
  case hc =>
    exact compaction_phase1
  case hfin =>
    rfl

lemma u32ofLE4_u32le (n : Nat) (h : n < 4294967296) :
    u32ofLE4 (n % 256) (n / 256 % 256) (n / 65536 % 256) (n / 16777216 % 256) = n := by
  unfold u32ofLE4
  omega

lemma compactionGo_error (file : Bytes) (offs : List (String × Offset)) (acc : Bytes)
    (e : KvsError) (h : compactionGo file offs acc = .error e) : e = .IoError := by
  induction offs generalizing acc with
  | nil => simp [compactionGo] at h
  | cons ent rest ih =>
    obtain ⟨k1, off⟩ := ent
    rewrite [compactionGo] at h
    cases hre : readExact file off.start off.len with
    | none =>
      rewrite [hre] at h
      simp at h
      exact h.symm
    | some d =>
      rewrite [hre] at h
      exact ih _ h

lemma compactionFn_error (offs : List (String × Offset)) (file : Bytes) (e : KvsError)
    (h : compactionFn offs file = .error e) : e = .IoError :=
  compactionGo_error file offs [] e h

lemma appendOp_error_step (st : KvStore) (fs : Option Bytes) (k : String) (val : Option String)
    (e : KvsError) (hth : st.operations + 1 > THRESHOLD)
    (hc : compactionFn (appendedOffsets st fs k val) (appendedFile fs k val) = .error e) :
    appendOp st fs k val = (.error e, ⟨appendedOffsets st fs k val, st.operations + 1⟩,
      some (appendedFile fs k val)) := by
  unfold appendOp
  rewrite [if_pos hth, hc]
  rfl

lemma appendOp_cases (st : KvStore) (fs : Option Bytes) (k : String) (val : Option String)
    (h : (appendOp st fs k val).1 = .ok ()) :
    (appendOp st fs k val).2.1.operations
        = (if st.operations + 1 > THRESHOLD then 0 else st.operations + 1) ∧
      (st.operations + 1 > THRESHOLD →
        ∃ nf, compactionFn (appendedOffsets st fs k val) (appendedFile fs k val) = .ok nf ∧
          (appendOp st fs k val).2.2 = some nf) := by
  by_cases hth : st.operations + 1 > THRESHOLD
  · cases hcf : compactionFn (appendedOffsets st fs k val) (appendedFile fs k val) with
    | error e =>
      rewrite [appendOp_error_step st fs k val e hth hcf] at h
      simp at h
    | ok nf =>
      rewrite [appendOp_compact st fs k val nf hth hcf]
      exact ⟨by simp [hth], fun _ => ⟨nf, rfl, by simp⟩⟩
  · rewrite [appendOp_no_compact st fs k val (by omega)]
    exact ⟨by simp [hth], fun hcontra => absurd hcontra hth⟩

lemma scanStep_truncated (ps : List KvPair) (t : Bytes) (fuel offset : Nat)
    (idx : List (String × Offset))
    (hsmall : ∀ p ∈ ps, (encodeBytes p).length < 4294967296)
    (ht : isPartialTail t = true)
    (hfuel : (encodedLog ps ++ t).length ≤ fuel) :
    scanStep fuel (encodedLog ps ++ t) offset idx = .error .IoError := by
  induction ps generalizing fuel offset idx with
  | nil =>
    simp only [encodedLog, List.map_nil, List.flatten_nil, List.nil_append] at hfuel ⊢
    cases t with
    | nil => exact absurd ht (by decide)
    | cons a t1 =>
      obtain ⟨m, rfl⟩ : ∃ m, fuel = m + 1 := by
        refine ⟨fuel - 1, ?_⟩
        simp only [List.length_cons] at hfuel
        omega
      cases t1 with
      | nil => rfl
      | cons b t2 =>
        cases t2 with
        | nil => rfl
        | cons c t3 =>
          cases t3 with
          | nil => rfl
          | cons d r =>
            have hsz : r.length < u32ofLE4 a b c d := by
              simpa [isPartialTail] using ht
            simp only [scanStep]
            rewrite [if_pos hsz]
            rfl
  | cons p ps ih =>
    have hp : (encodeBytes p).length < 4294967296 := hsmall p (by simp)
    have hlog : encodedLog (p :: ps) ++ t
        = (encodeBytes p).length % 256 :: (encodeBytes p).length / 256 % 256 ::
          (encodeBytes p).length / 65536 % 256 :: (encodeBytes p).length / 16777216 % 256 ::
          (encodeBytes p ++ (encodedLog ps ++ t)) := by
      simp [encodedLog, frameOf, u32le, List.append_assoc]
    obtain ⟨m, rfl⟩ : ∃ m, fuel = m + 1 := by
      refine ⟨fuel - 1, ?_⟩
      rewrite [hlog] at hfuel
      simp only [List.length_cons] at hfuel
      omega
    rewrite [hlog]
    simp only [scanStep]
    rewrite [u32ofLE4_u32le _ hp]
    have hrest : ¬ ((encodeBytes p ++ (encodedLog ps ++ t)).length < (encodeBytes p).length) := by
      simp only [List.length_append]
      omega
    rewrite [if_neg hrest]
    rewrite [List.take_left' rfl, decode_encode]
    rewrite [List.drop_left' rfl]
    apply ih
    · intro q hq
      exact hsmall q (by simp [hq])
    · rewrite [hlog] at hfuel
      simp only [List.length_cons, List.length_append] at hfuel
      simp only [List.length_append]
      omega

/-! ## Claim theorems -/

/-- C9: for every record `r = {key, value}` (value a string or absent),
decoding the bytes produced by encoding `r` yields `r` again:
`decode (encode r) = r`. -/
theorem c9_codec_roundtrip (p : KvPair) : decodeBytes (encodeBytes p) = some p :=
  decode_encode p

/-- C6: every successful mutating operation (`set` or `remove`) increments
the operation counter by one; when the incremented counter exceeds the
fixed threshold, that operation runs compaction (successfully — otherwise
the operation itself would have failed) and resets the counter to 0, and
otherwise the incremented value stays. -/
theorem c6_counter_behaviour (op : Op) (st : KvStore) (fs : Option Bytes)
    (h : (runOp op (st, fs)).1 = .ok ()) :
    (runOp op (st, fs)).2.1.operations
        = (if st.operations + 1 > THRESHOLD then 0 else st.operations + 1) ∧
      (st.operations + 1 > THRESHOLD →
        ∃ nf, compactionFn (appendedOffsets st fs (opKey op) (opVal op))
            (appendedFile fs (opKey op) (opVal op)) = .ok nf ∧
          (runOp op (st, fs)).2.2 = some nf) := by
  cases op with
  | set k v =>
    exact appendOp_cases st fs k (some v) h
  | remove k =>
    by_cases hk : (lookupA st.offsets k).isSome
    · have heq : runOp (Op.remove k) (st, fs) = appendOp st fs k none := by
        show removeOp st fs k = _
        unfold removeOp
        rewrite [if_pos hk]
        rfl
      rewrite [heq] at h ⊢
      exact appendOp_cases st fs k none h
    · have heq : runOp (Op.remove k) (st, fs) = (.error .KeyNotFound, st, fs) := by
        show removeOp st fs k = _
        unfold removeOp
        rewrite [if_neg hk]
        rfl
      rewrite [heq] at h
      simp at h

/-- Witness for C6: a concrete successful `set` below the threshold. -/
theorem c6_counter_behaviour_witness :
    (runOp (Op.set "a" "b") (⟨[], 5⟩, none)).1 = .ok () ∧
    (runOp (Op.set "a" "b") (⟨[], 5⟩, none)).2.1.operations = 6 := by
  refine ⟨by decide, ?_⟩
  have h := c6_counter_behaviour (Op.set "a" "b") ⟨[], 5⟩ none (by decide)
  rewrite [h.1]
  decide

/-- C8: when the compaction a mutating operation triggers fails before
the rename (a read of the old log fails), the operation returns
`IoError`, and both the log as it stood when compaction started (the
appended file) and the index (the appended offsets) are exactly as they
were before compaction started; the counter keeps its incremented value. -/
theorem c8_compaction_failure_preserves_state (st : KvStore) (fs : Option Bytes)
    (k : String) (val : Option String) (e : KvsError)
    (hth : st.operations + 1 > THRESHOLD)
    (hc : compactionFn (appendedOffsets st fs k val) (appendedFile fs k val) = .error e) :
    appendOp st fs k val = (.error .IoError, ⟨appendedOffsets st fs k val,
      st.operations + 1⟩, some (appendedFile fs k val)) := by
  have he := compactionFn_error _ _ _ hc
  subst he
  exact appendOp_error_step st fs k val _ hth hc

/-- Witness for C8: a store whose only index entry points beyond the log,
one operation past the threshold. -/
theorem c8_compaction_failure_witness :
    (⟨[("q", ⟨99, 5⟩)], 10000⟩ : KvStore).operations + 1 > THRESHOLD ∧
    compactionFn (appendedOffsets ⟨[("q", ⟨99, 5⟩)], 10000⟩ (some []) "a" (some "b"))
        (appendedFile (some []) "a" (some "b")) = .error .IoError ∧
    appendOp ⟨[("q", ⟨99, 5⟩)], 10000⟩ (some []) "a" (some "b")
      = (.error .IoError, ⟨appendedOffsets ⟨[("q", ⟨99, 5⟩)], 10000⟩ (some []) "a" (some "b"),
          10001⟩, some (appendedFile (some []) "a" (some "b"))) :=
  ⟨by decide, by decide,
    c8_compaction_failure_preserves_state _ _ _ _ KvsError.IoError (by decide) (by decide)⟩

/-- C10: `remove` on a key absent from the index fails with `KeyNotFound`
and leaves the store completely unchanged: no bytes are appended, the
index is untouched and the counter is not incremented. -/
theorem c10_remove_absent_noop (st : KvStore) (fs : Option Bytes) (k : String)
    (h : lookupA st.offsets k = none) :
    removeOp st fs k = (.error .KeyNotFound, st, fs) := by
  unfold removeOp
  rewrite [h]
  rfl

/-- Witness for C10 at a concrete input. -/
theorem c10_remove_absent_noop_witness :
    lookupA ([("b", ⟨4, 9⟩)] : List (String × Offset)) "a" = none ∧
    removeOp ⟨[("b", ⟨4, 9⟩)], 7⟩ (some [1, 2, 3]) "a"
      = (.error .KeyNotFound, ⟨[("b", ⟨4, 9⟩)], 7⟩, some [1, 2, 3]) :=
  ⟨by decide, c10_remove_absent_noop _ _ _ (by decide)⟩

/-- C2 counterexample: a log whose single frame announces five payload
bytes but ends after the prefix.  The scan during `open` fails with
`IoError` (the io-level unexpected-EOF is wrapped by `Err(IoError(err))`
at the `read_exact` call sites), not with the claimed
`KvsError::UnexpectedEOF`, a variant the program never constructs. -/
theorem c2_counterexample_io_error :
    openStore (some [5, 0, 0, 0]) = .error .IoError ∧
      KvsError.IoError ≠ KvsError.UnexpectedEOF := by
  decide

/-- C2 (amended): for every log made of whole well-formed frames followed
by a partial final frame — a length prefix shorter than 4 bytes, or a
payload shorter than the length the prefix announces — scanning during
`open` fails with `IoError` (not `UnexpectedEOF`). -/
theorem c2_partial_frame_io_error (ps : List KvPair) (t : Bytes)
    (hsmall : ∀ p ∈ ps, (encodeBytes p).length < 4294967296)
    (ht : isPartialTail t = true) :
    openStore (some (encodedLog ps ++ t)) = .error .IoError := by
  show (scanStep (encodedLog ps ++ t).length (encodedLog ps ++ t) 0 []).map
      (fun idx => (⟨idx, 0⟩ : KvStore)) = .error .IoError
  rewrite [scanStep_truncated ps t _ 0 [] hsmall ht (le_refl _)]
  rfl

/-- Witness for the amended C2: one whole frame, then a three-byte tail
announcing seven payload bytes. -/
theorem c2_partial_frame_io_error_witness :
    (∀ p ∈ [(⟨"a", some "b"⟩ : KvPair)], (encodeBytes p).length < 4294967296) ∧
    isPartialTail [7, 0, 0] = true ∧
    openStore (some (encodedLog [⟨"a", some "b"⟩] ++ [7, 0, 0])) = .error .IoError :=
  ⟨by decide, by decide, c2_partial_frame_io_error _ _ (by decide) (by decide)⟩

/-- C1 is false in the code (a bug): after the four writes
`set k a; set k b10; set k b50; set z ww`, running compaction directly
succeeds, but the index entry for `"k"` still holds its pre-compaction
Location (67, 72), which does not point at the record of `"k"` in the
compacted 104-byte log; a subsequent `get "k"` returns `IoError` instead
of the pre-compaction `some b50`. -/
theorem c1_compaction_leaves_stale_locations :
    (runAll (kOps ++ [Op.set "z" "ww"]) initS).map (fun s =>
      (getOp s.1 s.2 "k",
       (compactionFn s.1.offsets (s.2.getD [])).map (fun nf2 =>
         (lookupA s.1.offsets "k", getOp s.1 (some nf2) "k"))))
      = some (.ok (some b50s), .ok (some ⟨67, 72⟩, .error .IoError)) := by
  decide

/-- C3 is false in the code (the same compaction bug): right after
`set "k" b50s` a `get "k"` returns `some b50s`, but after 9998 further
writes that touch only `"z"` — the last of which crosses the operation
threshold and triggers compaction — `get "k"` returns `IoError`. -/
theorem c3_set_get_broken_by_threshold_compaction :
    (runAll kOps initS).map (fun s => getOp s.1 s.2 "k") = some (.ok (some b50s)) ∧
    (runAll phase1Ops initS).map (fun s => getOp s.1 s.2 "k") = some (.error .IoError) := by
  constructor
  · decide
  · rewrite [run_phase1]
    decide

/-- C4 is false in the code (the same compaction bug): after the
compaction-triggering workload `phase1Ops` (every operation of which
succeeded), re-opening the directory yields a store whose `get "k"`
returns `some b50s`, while the original store's `get "k"` before closing
returns `IoError` — the reopened results differ from the pre-close ones. -/
theorem c4_reopen_get_differs :
    (runAll phase1Ops initS).map (fun s =>
      ((openStore s.2).map (fun st2 => getOp st2 s.2 "k"), getOp s.1 s.2 "k"))
      = some (.ok (.ok (some b50s)), .error .IoError) := by
  rewrite [run_phase1]
  decide

/-! ## Phase 2: a second compaction copies garbage; a remove fails -/

lemma take_drop_append_of_le (l1 l2 : Bytes) (s n : Nat) (h : s + n ≤ l1.length) :
    List.take n (List.drop s (l1 ++ l2)) = List.take n (List.drop s l1) := by
  rewrite [List.drop_append_eq_append_drop, List.take_append_eq_append_take]
  have h1 : s - l1.length = 0 := by omega
  have h2 : n - (List.drop s l1).length = 0 := by
    simp only [List.length_drop]
    omega
  rewrite [h1, h2]
  simp

lemma phase2a_read1 :
    readExact ((nf1 ++ (List.replicate 10000 (frameOf pzz)).flatten) ++ frameOf pzz)
      67 72 = some g72 := by
  have hpzlen : pzz.length = 24 := by decide
  have hnf1len : nf1.length = 104 := by decide
  have hflen : ((nf1 ++ (List.replicate 10000 (frameOf pzz)).flatten) ++ frameOf pzz).length
      = 280132 := by
    simp only [List.length_append, flatten_replicate_length, frameOf_length, hpzlen, hnf1len]
  have hshape : (nf1 ++ (List.replicate 10000 (frameOf pzz)).flatten) ++ frameOf pzz
      = (nf1 ++ (frameOf pzz ++ frameOf pzz))
        ++ ((List.replicate 9998 (frameOf pzz)).flatten ++ frameOf pzz) := by
    have hrep : List.replicate 10000 (frameOf pzz)
        = frameOf pzz :: frameOf pzz :: List.replicate 9998 (frameOf pzz) := rfl
    rewrite [hrep]
    simp only [List.flatten_cons, List.append_assoc]
  have hprelen : (nf1 ++ (frameOf pzz ++ frameOf pzz)).length = 160 := by
    simp only [List.length_append, frameOf_length, hpzlen, hnf1len]
  unfold readExact
  rewrite [if_pos (by rewrite [hflen]; omega)]
  rewrite [hshape, take_drop_append_of_le (nf1 ++ (frameOf pzz ++ frameOf pzz))
    ((List.replicate 9998 (frameOf pzz)).flatten ++ frameOf pzz) 67 72
    (by rewrite [hprelen]; omega)]
  rfl

lemma phase2a_read2 :
    readExact ((nf1 ++ (List.replicate 10000 (frameOf pzz)).flatten) ++ frameOf pzz)
      280108 24 = some pzz := by
  have hpzlen : pzz.length = 24 := by decide
  have hnf1len : nf1.length = 104 := by decide
  have hflen : ((nf1 ++ (List.replicate 10000 (frameOf pzz)).flatten) ++ frameOf pzz).length
      = 280132 := by
    simp only [List.length_append, flatten_replicate_length, frameOf_length, hpzlen, hnf1len]
  have hmidlen : (nf1 ++ (List.replicate 10000 (frameOf pzz)).flatten).length = 280104 := by
    simp only [List.length_append, flatten_replicate_length, frameOf_length, hpzlen, hnf1len]
  have hlist : List.take 24 (List.drop 280108
      ((nf1 ++ (List.replicate 10000 (frameOf pzz)).flatten) ++ frameOf pzz)) = pzz := by
    rewrite [List.drop_append_eq_append_drop]
    rewrite [List.drop_eq_nil_of_le (le_of_eq_of_le hmidlen (by omega))]
    rewrite [hmidlen]
    norm_num
    decide
  unfold readExact
  rewrite [if_pos (by rewrite [hflen]; omega)]
  exact congrArg some hlist

lemma compaction_phase2a :
    compactionFn [("k", (⟨67, 72⟩ : Offset)), ("z", (⟨280108, 24⟩ : Offset))]
      ((nf1 ++ (List.replicate 10000 (frameOf pzz)).flatten) ++ frameOf pzz) = .ok file3 :=
  compactionFn_two _ "k" "z" ⟨67, 72⟩ ⟨280108, 24⟩ g72 pzz phase2a_read1 phase2a_read2

lemma run_phase2a : runAll phase2aOps initS = some (st5, some file3) := by
  have hpz : encodeBytes ⟨"z", some "ww"⟩ = pzz := rfl
  have hpzlen : pzz.length = 24 := by decide
  have hnf1len : nf1.length = 104 := by decide
  have hfMidlen : (nf1 ++ (List.replicate 10000 (frameOf pzz)).flatten).length = 280104 := by
    simp only [List.length_append, flatten_replicate_length, frameOf_length, hpzlen, hnf1len]
  have hmid := repAppend "z" "ww" 10000 stF nf1 (by omega) (by decide)
  rewrite [hpz] at hmid
  show runAll (phase1Ops ++ (List.replicate 10000 (Op.set "z" "ww") ++ [Op.set "z" "ww"])) initS
      = some (st5, some file3)
  rewrite [runAll_append, run_phase1, Option.some_bind, runAll_append, hmid, Option.some_bind]
  refine (zstep_compact _ _ [("k", ⟨67, 72⟩), ("z", ⟨280108, 24⟩)] file3 ?hoffs ?hops ?hc).trans
    ?hfin
  case hoffs =>
    rewrite [hpz, hfMidlen]
    decide
  case hops =>
    show stF.operations + 10000 + 1 > THRESHOLD
    decide
  case hc => exact compaction_phase2a
  case hfin => rfl

lemma readExact_isSome (f : Bytes) (s n : Nat) (h : s + n ≤ f.length) :
    (readExact f s n).isSome = true := by
  unfold readExact
  rewrite [if_pos h]
  rfl

lemma compactionGo_second_fails (file : Bytes) (k1 k2 : String) (o1 o2 : Offset) (acc : Bytes)
    (h1 : (readExact file o1.start o1.len).isSome = true)
    (h2 : readExact file o2.start o2.len = none) :
    compactionGo file [(k1, o1), (k2, o2)] acc = .error .IoError := by
  cases hre : readExact file o1.start o1.len with
  | none =>
    rewrite [hre] at h1
    simp at h1
  | some d =>
    simp only [compactionGo, hre, h2]

lemma ystep_remove_fails (stM : KvStore) (fM : Bytes)
    (hlook : (lookupA stM.offsets "y").isSome = true)
    (hops : stM.operations + 1 > THRESHOLD)
    (hc : compactionFn (removeA stM.offsets "y")
        (fM ++ frameOf (encodeBytes ⟨"y", none⟩)) = .error .IoError) :
    (removeOp stM (some fM) "y").1 = .error .IoError := by
  have herr := appendOp_error_step stM (some fM) "y" none .IoError hops (by
    show compactionFn (appendedOffsets stM (some fM) "y" none)
        (appendedFile (some fM) "y" none) = .error .IoError
    unfold appendedOffsets appendedFile
    simpa using hc)
  unfold removeOp
  rewrite [if_pos hlook, herr]
  rfl

lemma compaction_phase2b_fails :
    compactionFn [("k", (⟨67, 72⟩ : Offset)), ("z", (⟨280059, 24⟩ : Offset))]
      ((nf1 ++ (List.replicate 10000 (frameOf pyw)).flatten)
        ++ frameOf (encodeBytes ⟨"y", none⟩)) = .error .IoError := by
  have hpywlen : pyw.length = 23 := by decide
  have hnf1len : nf1.length = 104 := by decide
  have hytlen : (encodeBytes (⟨"y", none⟩ : KvPair)).length = 24 := by decide
  have hflen : ((nf1 ++ (List.replicate 10000 (frameOf pyw)).flatten)
      ++ frameOf (encodeBytes ⟨"y", none⟩)).length = 270132 := by
    simp only [List.length_append, flatten_replicate_length, frameOf_length, hpywlen,
      hnf1len, hytlen]
  unfold compactionFn
  apply compactionGo_second_fails
  · exact readExact_isSome _ _ _ (by rewrite [hflen]; decide)
  · unfold readExact
    rewrite [if_neg (by rewrite [hflen]; decide)]
    rfl

lemma run_phase2b : runAll phase2bOps initS
    = some (⟨[("k", ⟨67, 72⟩), ("z", ⟨280059, 24⟩), ("y", ⟨270081, 23⟩)], 10000⟩,
        some (nf1 ++ (List.replicate 10000 (frameOf pyw)).flatten)) := by
  have hpy : encodeBytes ⟨"y", some "w"⟩ = pyw := rfl
  have hpywlen : pyw.length = 23 := by decide
  have hnf1len : nf1.length = 104 := by decide
  have hmid := repAppend "y" "w" 10000 stF nf1 (by omega) (by decide)
  rewrite [hpy] at hmid
  show runAll (phase1Ops ++ List.replicate 10000 (Op.set "y" "w")) initS = _
  rewrite [runAll_append, run_phase1, Option.some_bind, hmid]
  rewrite [hnf1len, hpywlen]
  rewrite [show 104 + (10000 - 1) * (4 + 23) + 4 = 270081 from by norm_num]
  rewrite [show insertA stF.offsets "y" ⟨270081, 23⟩
      = [("k", ⟨67, 72⟩), ("z", ⟨280059, 24⟩), ("y", ⟨270081, 23⟩)] from by decide]
  rewrite [show stF.operations + 10000 = 10000 from by decide]
  rfl

/-- C5 is false in the code (the compaction bug): `phase2aOps` is a
sequence of successful operations (its two threshold crossings both run
compaction successfully), after which `"k"` appears in the Index while
the log contains no record for `"k"` at all — the second compaction
copied 72 garbage bytes from the stale Location — so the most recent
record for `"k"` is not a live write; the invariant's two sides disagree. -/
theorem c5_index_invariant_violated :
    (runAll phase2aOps initS).map (fun s =>
      ((lookupA s.1.offsets "k").isSome, lastRecordFor (s.2.getD []) "k"))
      = some (true, none) := by
  rewrite [run_phase2a]
  decide

/-- C7 is false in the code (the compaction bug): after `phase2bOps`
(every operation successful), `"y"` is present in the Index, yet
`remove "y"` fails — with `IoError`, because the compaction it triggers
reads the stale out-of-range Location of `"z"` — instead of succeeding
as the claim requires for a present key. -/
theorem c7_remove_present_key_fails :
    (runAll phase2bOps initS).map (fun s =>
      ((lookupA s.1.offsets "y").isSome, (removeOp s.1 s.2 "y").1))
      = some (true, .error .IoError) := by
  have h1 : (lookupA (⟨[("k", ⟨67, 72⟩), ("z", ⟨280059, 24⟩), ("y", ⟨270081, 23⟩)],
      10000⟩ : KvStore).offsets "y").isSome = true := by decide
  have h2 : (removeOp ⟨[("k", ⟨67, 72⟩), ("z", ⟨280059, 24⟩), ("y", ⟨270081, 23⟩)], 10000⟩
      (some (nf1 ++ (List.replicate 10000 (frameOf pyw)).flatten)) "y").1
      = .error .IoError := by
    apply ystep_remove_fails
    · decide
    · decide
    · rewrite [show removeA (⟨[("k", ⟨67, 72⟩), ("z", ⟨280059, 24⟩), ("y", ⟨270081, 23⟩)],
          10000⟩ : KvStore).offsets "y"
          = [("k", ⟨67, 72⟩), ("z", ⟨280059, 24⟩)] from by decide]
      exact compaction_phase2b_fails
  rewrite [run_phase2b]
  simp only [Option.map_some', h1, h2]
